import Mathlib

/-!
Shallow embedding of the `labuf` crate (`src/lib.rs`): a lookahead buffer
over a fallible iterator.  The Rust `FallibleIterator` source is modelled as
a list of scripted responses together with a counter of how many times its
`next()` has been invoked; the buffer is the pair of the source state and the
queue (front of the queue = head of the list).  Fallible operations return
the `Except` result together with the post-state, mirroring `&mut self`
methods whose `?` early-return still leaves the mutated receiver behind.
Machine integers (`usize`) are modelled as `Nat`; the one place where
overflow matters (`n + 1` inside `peek_n`) additionally gets a word-level
variant using an explicit `% 2 ^ 64`.
-/

namespace Labuf

/-- One scripted response of the source: an item, end-of-sequence, or a
failure carrying an error value. -/
inductive Pull (T E : Type) where
  | item : T → Pull T E
  | eos : Pull T E
  | err : E → Pull T E
deriving DecidableEq, Repr

/-- State of the external `FallibleIterator`: the remaining scripted
responses, plus a count of invocations of its `next()` (observable effect
used to state laziness and pull-count properties).  When the script is
exhausted the source keeps signalling end-of-sequence. -/
structure Source (T E : Type) where
  resps : List (Pull T E)
  pulls : Nat
deriving DecidableEq, Repr

/-- The source operation `next() -> Result<Option<T>, E>`: consume the head
response (end-of-sequence when the script ran out) and bump the invocation
counter. -/
def Source.next {T E : Type} (s : Source T E) : Except E (Option T) × Source T E :=
  match s.resps with
  | [] => (.ok none, ⟨[], s.pulls + 1⟩)
  | .item t :: rest => (.ok (some t), ⟨rest, s.pulls + 1⟩)
  | .eos :: rest => (.ok none, ⟨rest, s.pulls + 1⟩)
  | .err e :: rest => (.error e, ⟨rest, s.pulls + 1⟩)

/-- A failure-free source scripted to yield exactly the items of `l`, with
`p` invocations already recorded. -/
def pureSrc {T : Type} (E : Type) (l : List T) (p : Nat) : Source T E :=
  ⟨l.map Pull.item, p⟩

/-- The `LookaheadBuffer` struct: the owned iterator and the `VecDeque`
queue, front of the deque = head of the list. -/
structure LookaheadBuffer (T E : Type) where
  iter : Source T E
  queue : List T
deriving DecidableEq, Repr

namespace LookaheadBuffer

/-- `LookaheadBuffer::new`: wrap the iterator with an empty queue. -/
def new {T E : Type} (s : Source T E) : LookaheadBuffer T E :=
  ⟨s, []⟩

/-- The `for _ in 0..k` loop body of `try_ensure`: `k` is the iteration
count fixed at loop entry (`n.saturating_sub(queue.len())`); each iteration
pulls once, pushes an item to the back, stops on end-of-sequence, and
early-returns the error (keeping the queue) on failure. -/
def pullLoop {T E : Type} : Nat → LookaheadBuffer T E → Except E Unit × LookaheadBuffer T E
  | 0, b => (.ok (), b)
  | k + 1, b =>
    match b.iter.next with
    | (.ok (some t), it) => pullLoop k ⟨it, b.queue ++ [t]⟩
    | (.ok none, it) => (.ok (), ⟨it, b.queue⟩)
    | (.error e, it) => (.error e, ⟨it, b.queue⟩)

/-- `try_ensure(n)`: run the pull loop `n.saturating_sub(queue.len())`
times (`Nat` subtraction is saturating). -/
def try_ensure {T E : Type} (b : LookaheadBuffer T E) (n : Nat) :
    Except E Unit × LookaheadBuffer T E :=
  pullLoop (n - b.queue.length) b

/-- `peek_n(n)`: `try_ensure(n + 1)?` then `queue.get(n)`; the `?` returns
the error while keeping the mutated receiver. -/
def peek_n {T E : Type} (b : LookaheadBuffer T E) (n : Nat) :
    Except E (Option T) × LookaheadBuffer T E :=
  let r := try_ensure b (n + 1)
  (r.1.map fun _ => r.2.queue[n]?, r.2)

/-- Width of `usize` on a 64-bit target. -/
def USIZE : Nat := 2 ^ 64

/-- Word-level `peek_n`: the internal offset computation `n + 1` is done in
`usize` arithmetic, i.e. modulo `2 ^ 64` (release-mode wrapping semantics). -/
def peek_n_w {T E : Type} (b : LookaheadBuffer T E) (n : Nat) :
    Except E (Option T) × LookaheadBuffer T E :=
  let r := try_ensure b ((n + 1) % USIZE)
  (r.1.map fun _ => r.2.queue[n]?, r.2)

/-- `peek()` is `peek_n(0)`. -/
def peek {T E : Type} (b : LookaheadBuffer T E) : Except E (Option T) × LookaheadBuffer T E :=
  peek_n b 0

/-- `peek_multiple::<N>()`: `try_ensure(N)?`, then `pack[i] = queue.get(i)`
for `i in 0..N`; slot values stand for the returned references. -/
def peek_multiple {T E : Type} (b : LookaheadBuffer T E) (N : Nat) :
    Except E (List (Option T)) × LookaheadBuffer T E :=
  let r := try_ensure b N
  (r.1.map fun _ => (List.range N).map fun i => r.2.queue[i]?, r.2)

/-- The fill loop of `peek_multiple_mut`: walk the whole queue, writing each
element into the next slot of `pack` (initially `[const { None }; N]`).
When the slot iterator is exhausted while queue elements remain, the Rust
code calls `unwrap_unchecked()` on `None`, which is undefined behavior;
that outcome is modelled as `none`. -/
def fillLoop {T : Type} : List T → List (Option T) → Option (List (Option T))
  | [], pack => some pack
  | _ :: _, [] => none
  | x :: xs, _ :: pack => (fillLoop xs pack).map fun p => some x :: p

/-- `peek_multiple_mut::<N>()`: `try_ensure(N)?`, then the unsafe fill loop
over `[const { None }; N]`.  Returns `none` when the loop hits undefined
behavior. -/
def peek_multiple_mut {T E : Type} (b : LookaheadBuffer T E) (N : Nat) :
    Option (Except E (List (Option T)) × LookaheadBuffer T E) :=
  let r := try_ensure b N
  match r.1 with
  | .error e => some (.error e, r.2)
  | .ok _ =>
    match fillLoop r.2.queue (List.replicate N none) with
    | none => none
    | some pack => some (.ok pack, r.2)

/-- `next()`: pop the front of the queue if non-empty, otherwise pull
directly from the iterator (the pulled result is returned, never queued). -/
def next {T E : Type} (b : LookaheadBuffer T E) :
    Except E (Option T) × LookaheadBuffer T E :=
  match b.queue with
  | t :: rest => (.ok (some t), ⟨b.iter, rest⟩)
  | [] =>
    match b.iter.next with
    | (r, it) => (r, ⟨it, []⟩)

/-- `advance()`: `next()` with the yielded value discarded. -/
def advance {T E : Type} (b : LookaheadBuffer T E) :
    Except E Unit × LookaheadBuffer T E :=
  match next b with
  | (r, b1) => (r.map fun _ => (), b1)

/-- Run `next()` a given number of times, collecting the results in order. -/
def runNexts {T E : Type} : Nat → LookaheadBuffer T E →
    List (Except E (Option T)) × LookaheadBuffer T E
  | 0, b => ([], b)
  | j + 1, b =>
    match next b with
    | (r, b1) =>
      match runNexts j b1 with
      | (rs, b2) => (r :: rs, b2)

end LookaheadBuffer

end Labuf

namespace Labuf

open LookaheadBuffer

/-! General lemmas about the pull loop and the operations built on it. -/

/-- Every invocation of the source bumps the pull counter by exactly one. -/
theorem Source.next_pulls {T E : Type} (s : Source T E) :
    s.next.2.pulls = s.pulls + 1 := by
  rcases s with ⟨resps, p⟩
  cases resps with
  | nil => rfl
  | cons r rest => cases r <;> rfl

/-- Running the pull loop on a failure-free source: all requested items are
pulled (one invocation each, plus one extra invocation observing
end-of-sequence when the script is shorter than the request) and appended
in order to the back of the queue. -/
theorem pullLoop_pure {T E : Type} (k : Nat) (l : List T) (p : Nat) (q : List T) :
    pullLoop k (⟨pureSrc E l p, q⟩ : LookaheadBuffer T E) =
      (.ok (), ⟨pureSrc E (l.drop k) (p + min k (l.length + 1)), q ++ l.take k⟩) := by
  induction k generalizing l p q with
  | zero => simp [pullLoop, pureSrc]
  | succ k ih =>
    cases l with
    | nil =>
      have hstep : pullLoop (k + 1) (⟨pureSrc E [] p, q⟩ : LookaheadBuffer T E) =
          (.ok (), ⟨⟨[], p + 1⟩, q⟩) := rfl
      rw [hstep]
      simp [pureSrc]
    | cons t l =>
      have hstep : pullLoop (k + 1) (⟨pureSrc E (t :: l) p, q⟩ : LookaheadBuffer T E) =
          pullLoop k (⟨pureSrc E l (p + 1), q ++ [t]⟩ : LookaheadBuffer T E) := rfl
      rw [hstep, ih]
      refine congrArg (Prod.mk _) ?_
      refine congrArg₂ LookaheadBuffer.mk ?_ (by simp)
      unfold pureSrc
      refine congrArg₂ Source.mk (by simp) (by simp; omega)

/-- try_ensure on a failure-free source, fully characterized. -/
theorem try_ensure_pure {T E : Type} (n : Nat) (l : List T) (p : Nat) (q : List T) :
    try_ensure (⟨pureSrc E l p, q⟩ : LookaheadBuffer T E) n =
      (.ok (), ⟨pureSrc E (l.drop (n - q.length)) (p + min (n - q.length) (l.length + 1)),
        q ++ l.take (n - q.length)⟩) :=
  pullLoop_pure (n - q.length) l p q

/-- Looking up offset n in the queue extended by the lazily pulled items
agrees with looking it up in the full remaining stream. -/
theorem getElem?_append_take {T : Type} (q l : List T) (n : Nat) :
    (q ++ l.take (n + 1 - q.length))[n]? = (q ++ l)[n]? := by
  rcases Nat.lt_or_ge n q.length with h | h
  · rw [List.getElem?_append_left h, List.getElem?_append_left h]
  · rw [List.getElem?_append_right h, List.getElem?_append_right h, List.getElem?_take,
      if_pos (by omega)]

/-- peek_n on a failure-free source, fully characterized: the result is the
offset-n lookup in queue-then-script, the queue extends by exactly the items
needed, and the pull counter grows by the number of loop iterations actually
run. -/
theorem peek_n_pure {T E : Type} (n : Nat) (l : List T) (p : Nat) (q : List T) :
    peek_n (⟨pureSrc E l p, q⟩ : LookaheadBuffer T E) n =
      (.ok ((q ++ l)[n]?),
        ⟨pureSrc E (l.drop (n + 1 - q.length)) (p + min (n + 1 - q.length) (l.length + 1)),
          q ++ l.take (n + 1 - q.length)⟩) := by
  unfold peek_n
  rw [show try_ensure (⟨pureSrc E l p, q⟩ : LookaheadBuffer T E) (n + 1) =
      pullLoop (n + 1 - q.length) (⟨pureSrc E l p, q⟩ : LookaheadBuffer T E) from rfl,
    pullLoop_pure]
  simp [getElem?_append_take, Except.map]

/-- Unfolding one step of runNexts. -/
theorem runNexts_succ {T E : Type} (j : Nat) (b : LookaheadBuffer T E) :
    runNexts (j + 1) b =
      ((next b).1 :: (runNexts j (next b).2).1, (runNexts j (next b).2).2) := rfl

/-- Unfolding one step of runNexts, first component. -/
theorem runNexts_fst_succ {T E : Type} (j : Nat) (b : LookaheadBuffer T E) :
    (runNexts (j + 1) b).1 = (next b).1 :: (runNexts j (next b).2).1 := rfl

/-- Consuming j times from a buffer over a failure-free source yields the
offset-i lookups of queue-then-script, in order; lookups past the end are
`none`. -/
theorem runNexts_pure {T E : Type} (j : Nat) (l : List T) (p : Nat) (q : List T) :
    (runNexts j (⟨pureSrc E l p, q⟩ : LookaheadBuffer T E)).1 =
      (List.range j).map fun i => Except.ok (q ++ l)[i]? := by
  induction j generalizing l p q with
  | zero => simp [runNexts]
  | succ j ih =>
    rw [List.range_succ_eq_map, List.map_cons, List.map_map]
    cases q with
    | cons a q =>
      have hnext : next (⟨pureSrc E l p, a :: q⟩ : LookaheadBuffer T E) =
          (.ok (some a), ⟨pureSrc E l p, q⟩) := rfl
      rw [runNexts_fst_succ, hnext]
      dsimp only
      rw [ih]
      refine congrArg₂ List.cons (by simp) ?_
      refine List.map_congr_left fun i _ => ?_
      simp
    | nil =>
      cases l with
      | nil =>
        have hnext : next (⟨pureSrc E ([] : List T) p, []⟩ : LookaheadBuffer T E) =
            (.ok none, ⟨pureSrc E [] (p + 1), []⟩) := rfl
        rw [runNexts_fst_succ, hnext]
        dsimp only
        rw [ih]
        refine congrArg₂ List.cons (by simp) ?_
        refine List.map_congr_left fun i _ => ?_
        simp
      | cons t l =>
        have hnext : next (⟨pureSrc E (t :: l) p, []⟩ : LookaheadBuffer T E) =
            (.ok (some t), ⟨pureSrc E l (p + 1), []⟩) := rfl
        rw [runNexts_fst_succ, hnext]
        dsimp only
        rw [ih]
        refine congrArg₂ List.cons (by simp) ?_
        refine List.map_congr_left fun i _ => ?_
        simp

/-- The pull loop performs at most its iteration count of source
invocations, whatever the source script holds. -/
theorem pullLoop_pulls_le {T E : Type} (k : Nat) (b : LookaheadBuffer T E) :
    (pullLoop k b).2.iter.pulls ≤ b.iter.pulls + k := by
  induction k generalizing b with
  | zero => simp [pullLoop]
  | succ k ih =>
    rcases b with ⟨⟨resps, p⟩, q⟩
    cases resps with
    | nil =>
      have hstep : pullLoop (k + 1) (⟨⟨[], p⟩, q⟩ : LookaheadBuffer T E) =
          (.ok (), ⟨⟨[], p + 1⟩, q⟩) := rfl
      rw [hstep]
      simp
    | cons r rest =>
      cases r with
      | item t =>
        have hstep : pullLoop (k + 1) (⟨⟨Pull.item t :: rest, p⟩, q⟩ : LookaheadBuffer T E) =
            pullLoop k ⟨⟨rest, p + 1⟩, q ++ [t]⟩ := rfl
        rw [hstep]
        have := ih ⟨⟨rest, p + 1⟩, q ++ [t]⟩
        simp only at this ⊢
        omega
      | eos =>
        have hstep : pullLoop (k + 1) (⟨⟨Pull.eos :: rest, p⟩, q⟩ : LookaheadBuffer T E) =
            (.ok (), ⟨⟨rest, p + 1⟩, q⟩) := rfl
        rw [hstep]
        simp
      | err e =>
        have hstep : pullLoop (k + 1) (⟨⟨Pull.err e :: rest, p⟩, q⟩ : LookaheadBuffer T E) =
            (.error e, ⟨⟨rest, p + 1⟩, q⟩) := rfl
        rw [hstep]
        simp

/-- The pull loop only ever appends to the back of the queue. -/
theorem pullLoop_queue_ext {T E : Type} (k : Nat) (b : LookaheadBuffer T E) :
    ∃ s, (pullLoop k b).2.queue = b.queue ++ s := by
  induction k generalizing b with
  | zero => exact ⟨[], by simp [pullLoop]⟩
  | succ k ih =>
    rcases b with ⟨⟨resps, p⟩, q⟩
    cases resps with
    | nil => exact ⟨[], by simp [pullLoop, Source.next]⟩
    | cons r rest =>
      cases r with
      | item t =>
        obtain ⟨s, hs⟩ := ih ⟨⟨rest, p + 1⟩, q ++ [t]⟩
        refine ⟨t :: s, ?_⟩
        have hstep : pullLoop (k + 1) (⟨⟨Pull.item t :: rest, p⟩, q⟩ : LookaheadBuffer T E) =
            pullLoop k ⟨⟨rest, p + 1⟩, q ++ [t]⟩ := rfl
        rw [hstep, hs]
        simp
      | eos => exact ⟨[], by simp [pullLoop, Source.next]⟩
      | err e => exact ⟨[], by simp [pullLoop, Source.next]⟩

/-- Items present in the queue before a pull loop runs are still there, in
place, afterwards — whatever the loop encountered (including failures). -/
theorem pullLoop_queue_take {T E : Type} (k : Nat) (b : LookaheadBuffer T E) :
    ((pullLoop k b).2.queue).take b.queue.length = b.queue := by
  obtain ⟨s, hs⟩ := pullLoop_queue_ext k b
  rw [hs, List.take_left]

/-- An error escaping the pull loop is literally one of the source's
scripted error responses. -/
theorem pullLoop_error_mem {T E : Type} (k : Nat) (b : LookaheadBuffer T E) (e : E)
    (h : (pullLoop k b).1 = .error e) : Pull.err e ∈ b.iter.resps := by
  induction k generalizing b with
  | zero => simp [pullLoop] at h
  | succ k ih =>
    rcases b with ⟨⟨resps, p⟩, q⟩
    cases resps with
    | nil =>
      have hstep : pullLoop (k + 1) (⟨⟨[], p⟩, q⟩ : LookaheadBuffer T E) =
          (.ok (), ⟨⟨[], p + 1⟩, q⟩) := rfl
      rw [hstep] at h
      simp at h
    | cons r rest =>
      cases r with
      | item t =>
        have hstep : pullLoop (k + 1) (⟨⟨Pull.item t :: rest, p⟩, q⟩ : LookaheadBuffer T E) =
            pullLoop k ⟨⟨rest, p + 1⟩, q ++ [t]⟩ := rfl
        rw [hstep] at h
        exact List.mem_cons_of_mem _ (ih ⟨⟨rest, p + 1⟩, q ++ [t]⟩ h)
      | eos =>
        have hstep : pullLoop (k + 1) (⟨⟨Pull.eos :: rest, p⟩, q⟩ : LookaheadBuffer T E) =
            (.ok (), ⟨⟨rest, p + 1⟩, q⟩) := rfl
        rw [hstep] at h
        simp at h
      | err e1 =>
        have hstep : pullLoop (k + 1) (⟨⟨Pull.err e1 :: rest, p⟩, q⟩ : LookaheadBuffer T E) =
            (.error e1, ⟨⟨rest, p + 1⟩, q⟩) := rfl
        rw [hstep] at h
        simp at h
        simp [h]

/-- Reading offsets 0..N of a list through getElem? yields the items of its
length-N initial segment followed by padding nones. -/
theorem range_map_getElem? {T : Type} (m : List T) (N : Nat) :
    (List.range N).map (fun i => m[i]?) =
      (m.take N).map some ++ List.replicate (N - m.length) none := by
  induction m generalizing N with
  | nil => simp [List.map_const']
  | cons a m ih =>
    cases N with
    | zero => simp
    | succ N =>
      rw [List.range_succ_eq_map]
      simp only [List.map_cons, List.map_map, List.getElem?_cons_zero, List.take_succ_cons,
        List.length_cons, Nat.succ_sub_succ_eq_sub]
      refine congrArg (List.cons (some a)) ?_
      have hfun : ((fun i => (a :: m)[i]?) ∘ Nat.succ) = fun i => m[i]? := by
        funext i
        simp
      rw [hfun, ih]
      rfl

/-- When the requested depth is already buffered, try_ensure is a no-op. -/
theorem try_ensure_of_le {T E : Type} (b : LookaheadBuffer T E) (n : Nat)
    (h : n ≤ b.queue.length) : try_ensure b n = (.ok (), b) := by
  unfold try_ensure
  rw [show n - b.queue.length = 0 from by omega]
  rfl

/-- When offset n is already buffered, peek_n is a pure lookup: no state
change at all. -/
theorem peek_n_of_lt {T E : Type} (b : LookaheadBuffer T E) (n : Nat)
    (h : n < b.queue.length) : peek_n b n = (.ok b.queue[n]?, b) := by
  unfold peek_n
  rw [try_ensure_of_le b (n + 1) h]
  rfl

example :
    (peek_n (new (pureSrc Nat [1, 2, 3, 4, 5] 0)) 3).1 = .ok (some 4) := by
  rfl

example :
    (peek_multiple (new (pureSrc Nat [1, 2, 3, 4, 5] 0)) 6).1 =
      .ok [some 1, some 2, some 3, some 4, some 5, none] := by
  rfl

/-! Claims. -/

/-- C6: for every failure-free source producing the items of l and then
signalling end-of-sequence, consuming the fresh buffer by repeated
next()/advance() yields exactly the items of l in order; every consumption
past the end yields no item (the i-th result is the offset-i lookup in l,
which is `some` within l and `none` beyond it). -/
theorem C6_order_preservation {T E : Type} (l : List T) (j : Nat) :
    (runNexts j (new (pureSrc E l 0))).1 =
      (List.range j).map fun i => Except.ok l[i]? := by
  have h := runNexts_pure (E := E) j l 0 []
  simpa [new] using h

/-- C7: next() consumes exactly one element: on a non-empty queue it pops
and returns the front with the source untouched (zero pulls); on an empty
queue it invokes the source exactly once and returns that exact result,
leaving the queue empty; advance() reaches the same post-state. -/
theorem C7_next_consumes_exactly_one {T E : Type} (it : Source T E) (queue : List T) :
    (∀ t rest, queue = t :: rest →
      next (⟨it, queue⟩ : LookaheadBuffer T E) = (.ok (some t), ⟨it, rest⟩)) ∧
    (queue = [] →
      (next (⟨it, queue⟩ : LookaheadBuffer T E)).1 = it.next.1 ∧
      (next (⟨it, queue⟩ : LookaheadBuffer T E)).2.iter = it.next.2 ∧
      (next (⟨it, queue⟩ : LookaheadBuffer T E)).2.queue = [] ∧
      (next (⟨it, queue⟩ : LookaheadBuffer T E)).2.iter.pulls = it.pulls + 1) ∧
    (advance (⟨it, queue⟩ : LookaheadBuffer T E)).2 =
      (next (⟨it, queue⟩ : LookaheadBuffer T E)).2 := by
  refine ⟨?_, ?_, rfl⟩
  · rintro t rest rfl
    rfl
  · rintro rfl
    exact ⟨rfl, rfl, rfl, Source.next_pulls it⟩

/-- Witness for C7: a queue [3] pops 3 untouched; an empty queue over the
script [item 7] pulls exactly once. -/
theorem C7_next_consumes_exactly_one_witness :
    next (⟨⟨[], 0⟩, [3]⟩ : LookaheadBuffer Nat Nat) = (.ok (some 3), ⟨⟨[], 0⟩, []⟩) ∧
    (next (⟨⟨[Pull.item 7], 0⟩, []⟩ : LookaheadBuffer Nat Nat)).2.iter.pulls = 0 + 1 :=
  ⟨(C7_next_consumes_exactly_one ⟨[], 0⟩ [3]).1 3 [] rfl,
   ((C7_next_consumes_exactly_one ⟨[Pull.item 7], 0⟩ []).2.1 rfl).2.2.2⟩

/-- C8: construction wraps the source untouched (zero pulls, empty queue),
and every operation pulls at most its deficit: try_ensure(n) at most
n − queue.length invocations (saturating), peek_n(n) at most
n + 1 − queue.length, next() at most one. -/
theorem C8_laziness_and_pull_bound {T E : Type} :
    (∀ s : Source T E, (new s).queue = [] ∧ (new s).iter = s) ∧
    (∀ (b : LookaheadBuffer T E) (n : Nat),
      (try_ensure b n).2.iter.pulls ≤ b.iter.pulls + (n - b.queue.length)) ∧
    (∀ (b : LookaheadBuffer T E) (n : Nat),
      (peek_n b n).2.iter.pulls ≤ b.iter.pulls + (n + 1 - b.queue.length)) ∧
    (∀ b : LookaheadBuffer T E, (next b).2.iter.pulls ≤ b.iter.pulls + 1) := by
  refine ⟨fun s => ⟨rfl, rfl⟩, fun b n => pullLoop_pulls_le _ b,
    fun b n => pullLoop_pulls_le _ b, fun b => ?_⟩
  rcases b with ⟨it, queue⟩
  cases queue with
  | nil => exact Nat.le_of_eq (Source.next_pulls it)
  | cons t rest => exact Nat.le_succ _

/-- C9: a window of width N over a failure-free source holding exactly
k = |q ++ l| < N remaining items (buffered ones included) yields the k
items in order followed by N − k empty slots — contiguous, never
interleaved. -/
theorem C9_window_exhaustion_contiguous {T E : Type} (l q : List T) (p N : Nat)
    (h : (q ++ l).length < N) :
    (peek_multiple (⟨pureSrc E l p, q⟩ : LookaheadBuffer T E) N).1 =
      .ok ((q ++ l).map some ++ List.replicate (N - (q ++ l).length) none) := by
  have hl : l.length ≤ N - q.length := by
    rw [List.length_append] at h
    omega
  unfold peek_multiple
  rw [show try_ensure (⟨pureSrc E l p, q⟩ : LookaheadBuffer T E) N =
      pullLoop (N - q.length) (⟨pureSrc E l p, q⟩ : LookaheadBuffer T E) from rfl,
    pullLoop_pure, List.take_of_length_le hl]
  show Except.ok ((List.range N).map fun i => (q ++ l)[i]?) = _
  rw [range_map_getElem?, List.take_of_length_le (Nat.le_of_lt h)]

/-- Witness for C9: source [1], window 2, gives [some 1, none]. -/
theorem C9_window_exhaustion_contiguous_witness :
    (peek_multiple (⟨pureSrc Nat [1] 0, []⟩ : LookaheadBuffer Nat Nat) 2).1 =
      .ok ([some 1, none] : List (Option Nat)) := by
  have h := C9_window_exhaustion_contiguous (E := Nat) [1] [] 0 2 (by decide)
  simpa using h

/-- C10: peek_n(0) immediately followed by next() observes the same item
through both operations: on any buffer over a failure-free source, the
consuming call returns exactly what the peek returned. -/
theorem C10_peek_advance_equivalence {T E : Type} (l q : List T) (p : Nat) :
    (next (peek_n (⟨pureSrc E l p, q⟩ : LookaheadBuffer T E) 0).2).1 =
      (peek_n (⟨pureSrc E l p, q⟩ : LookaheadBuffer T E) 0).1 := by
  rw [peek_n_pure]
  cases q with
  | cons a q => simp [next]
  | nil =>
    cases l with
    | nil => simp [next, pureSrc, Source.next]
    | cons t l => simp [next, pureSrc]

/-- C1 (code bug): in the reachable state obtained by peek_n(1) on a fresh
buffer over a three-item source the queue holds the two elements [1, 2];
try_ensure(1) then leaves both in place, so the queue holds more than N = 1
elements, and the fill loop of peek_multiple_mut::<1>() exhausts its single
output slot while a queue element remains — the unchecked unwrap hits None
(undefined behavior, modelled as `none`) — whereas the safe peek_multiple
at the same state returns the slot array [some 1]. -/
theorem C1_unsafe_fill_unwrap_ub :
    (peek_n (new (⟨[Pull.item 1, Pull.item 2, Pull.item 3], 0⟩ : Source Nat Nat)) 1).2.queue
      = [1, 2] ∧
    (try_ensure
      (peek_n (new (⟨[Pull.item 1, Pull.item 2, Pull.item 3], 0⟩ : Source Nat Nat)) 1).2
      1).2.queue.length = 2 ∧
    peek_multiple_mut
      (peek_n (new (⟨[Pull.item 1, Pull.item 2, Pull.item 3], 0⟩ : Source Nat Nat)) 1).2
      1 = none ∧
    (peek_multiple
      (peek_n (new (⟨[Pull.item 1, Pull.item 2, Pull.item 3], 0⟩ : Source Nat Nat)) 1).2
      1).1 = .ok [some 1] :=
  ⟨rfl, rfl, rfl, rfl⟩

/-- C2 counterexample: over an already-exhausted source, the first peek
observes end-of-sequence after one source invocation; the second peek — a
subsequent pull attempt — invokes the source again (two invocations in
total), refuting the claim that later pull attempts are answered without
re-invoking the source. -/
theorem C2_cex :
    (peek_n (new (pureSrc Nat ([] : List Nat) 0)) 0).2.iter.pulls = 1 ∧
    (peek_n ((peek_n (new (pureSrc Nat ([] : List Nat) 0)) 0).2) 0).1 = .ok none ∧
    (peek_n ((peek_n (new (pureSrc Nat ([] : List Nat) 0)) 0).2) 0).2.iter.pulls = 2 :=
  ⟨rfl, rfl, rfl⟩

/-- C2 amended: within a single try_ensure call, observing end-of-sequence
stops all further pulling in that call (one invocation, state otherwise
untouched); the buffer does not cache exhaustion across calls — on a source
that keeps signalling end-of-sequence, a later peek_n re-invokes it exactly
once more whenever the requested depth is not buffered (and not at all when
it is), still reporting the plain queue lookup. -/
theorem C2_eos_amended {T E : Type} :
    (∀ (k p : Nat) (rest : List (Pull T E)) (q : List T),
      pullLoop (k + 1) (⟨⟨Pull.eos :: rest, p⟩, q⟩ : LookaheadBuffer T E) =
        (.ok (), ⟨⟨rest, p + 1⟩, q⟩)) ∧
    (∀ (q : List T) (p n : Nat),
      peek_n (⟨⟨[], p⟩, q⟩ : LookaheadBuffer T E) n =
        (.ok q[n]?, ⟨⟨[], p + if q.length < n + 1 then 1 else 0⟩, q⟩)) := by
  constructor
  · intro k p rest q
    rfl
  · intro q p n
    by_cases h : q.length < n + 1
    · rw [if_pos h]
      have hpl : pullLoop (n + 1 - q.length) (⟨⟨[], p⟩, q⟩ : LookaheadBuffer T E) =
          (.ok (), ⟨⟨[], p + 1⟩, q⟩) := by
        rw [show n + 1 - q.length = (n - q.length) + 1 from by omega]
        rfl
      unfold peek_n try_ensure
      dsimp only
      rw [hpl]
      rfl
    · rw [if_neg h]
      have h0 : n + 1 - q.length = 0 := by omega
      unfold peek_n try_ensure
      dsimp only
      rw [h0]
      rfl

/-- C3 counterexample: peek_n(1) twice in a row with no intervening
consumption, on a fresh buffer over the one-item source [5]: both calls
return no element, but the second call performs one further source pull
(the invocation count rises from 2 to 3), refuting the claim that the
second call performs zero pulls. -/
theorem C3_cex :
    (peek_n (new (pureSrc Nat [5] 0)) 1).1 = .ok none ∧
    (peek_n (new (pureSrc Nat [5] 0)) 1).2.iter.pulls = 2 ∧
    (peek_n ((peek_n (new (pureSrc Nat [5] 0)) 1).2) 1).1 = .ok none ∧
    (peek_n ((peek_n (new (pureSrc Nat [5] 0)) 1).2) 1).2.iter.pulls = 3 :=
  ⟨rfl, rfl, rfl, rfl⟩

/-- C3 amended: peek_n(n) twice in a row with no intervening consuming
call returns the identical result both times on any failure-free source;
and whenever the first call actually found the requested element, the
second call is a complete no-op — same result and bit-for-bit the same
buffer state, hence zero pulls.  (When the first call came up short, the
code re-pulls the source on the second call, as C3_cex shows.) -/
theorem C3_peek_idempotence_amended {T E : Type} :
    (∀ (l q : List T) (p n : Nat),
      (peek_n (peek_n (⟨pureSrc E l p, q⟩ : LookaheadBuffer T E) n).2 n).1 =
        (peek_n (⟨pureSrc E l p, q⟩ : LookaheadBuffer T E) n).1) ∧
    (∀ (b : LookaheadBuffer T E) (n : Nat) (t : T),
      (peek_n b n).1 = .ok (some t) →
        peek_n (peek_n b n).2 n = ((peek_n b n).1, (peek_n b n).2)) := by
  constructor
  · intro l q p n
    rw [peek_n_pure]
    dsimp only
    rw [peek_n_pure]
    dsimp only
    rw [List.append_assoc, List.take_append_drop]
  · intro b n t h
    have hq : (try_ensure b (n + 1)).2.queue[n]? = some t := by
      have hdef : (peek_n b n).1 =
          (try_ensure b (n + 1)).1.map fun _ => (try_ensure b (n + 1)).2.queue[n]? := rfl
      rw [hdef] at h
      cases hr : (try_ensure b (n + 1)).1 with
      | error e => rw [hr] at h; simp [Except.map] at h
      | ok u => rw [hr] at h; simpa [Except.map] using h
    have hlen : n < (peek_n b n).2.queue.length := by
      rcases Nat.lt_or_ge n (try_ensure b (n + 1)).2.queue.length with hlt | hge
      · exact hlt
      · rw [List.getElem?_eq_none hge] at hq
        cases hq
    rw [peek_n_of_lt (peek_n b n).2 n hlen, h]
    exact congrArg₂ Prod.mk (congrArg Except.ok hq) rfl

/-- Witness for C3 amended, part two: on the source [4], peek_n(0) finds
the item, so the immediate second peek_n(0) changes nothing at all. -/
theorem C3_peek_idempotence_amended_witness :
    peek_n (peek_n (new (pureSrc Nat [4] 0)) 0).2 0 =
      ((peek_n (new (pureSrc Nat [4] 0)) 0).1, (peek_n (new (pureSrc Nat [4] 0)) 0).2) :=
  (C3_peek_idempotence_amended (T := Nat) (E := Nat)).2 (new (pureSrc Nat [4] 0)) 0 4 rfl

/-- C4 counterexample: at n = USIZE − 1 the internal offset computation
n + 1 wraps to 0 in usize arithmetic, so peek_n ensures nothing and
answers no-element even though the source script still holds USIZE items
(depth n + 1 is reachable): the contract does not hold at the maximum
index. -/
theorem C4_cex :
    (peek_n_w (new (⟨List.replicate USIZE (Pull.item 0), 0⟩ : Source Nat Nat))
      (USIZE - 1)).1 = .ok none ∧
    USIZE - 1 < (List.replicate USIZE (Pull.item (0 : Nat) : Pull Nat Nat)).length := by
  constructor
  · rfl
  · rw [List.length_replicate]
    decide

/-- C4 amended: for every n with n + 1 < 2^64 (no usize overflow), the
word-level peek_n agrees with the unbounded one, and that one meets the
contract on every failure-free source: it returns the offset-n lookup in
queue-then-script (no-element exactly when the source is exhausted before
depth n + 1) and extends the queue by exactly the items needed for depth
n + 1. -/
theorem C4_peek_n_contract_amended {T E : Type} (n : Nat) (hn : n + 1 < USIZE) :
    (∀ b : LookaheadBuffer T E, peek_n_w b n = peek_n b n) ∧
    (∀ (l q : List T) (p : Nat),
      peek_n (⟨pureSrc E l p, q⟩ : LookaheadBuffer T E) n =
        (.ok ((q ++ l)[n]?),
          ⟨pureSrc E (l.drop (n + 1 - q.length))
              (p + min (n + 1 - q.length) (l.length + 1)),
            q ++ l.take (n + 1 - q.length)⟩)) := by
  constructor
  · intro b
    unfold peek_n_w peek_n
    rw [Nat.mod_eq_of_lt hn]
  · intro l q p
    exact peek_n_pure n l p q

/-- Witness for C4 amended at n = 1 over the source [1, 2, 3]. -/
theorem C4_peek_n_contract_amended_witness :
    peek_n_w (new (pureSrc Nat [1, 2, 3] 0)) 1 = peek_n (new (pureSrc Nat [1, 2, 3] 0)) 1 :=
  (C4_peek_n_contract_amended (T := Nat) (E := Nat) 1 (by decide)).1
    (new (pureSrc Nat [1, 2, 3] 0))

/-- C5: a failing pull aborts the operation, hands the error value back (it
is literally one of the source's scripted errors), and the queue keeps, in
place, every item it held when the operation started plus whatever was
pulled before the failure; concretely, on the script [item 0, err 7],
peek_n(1) fails with error 7 leaving the queue [0], and a following
peek_n(0) answers item 0 from the queue with zero further source
invocations. -/
theorem C5_failure_preserves_pulled_items :
    (∀ (T E : Type) (b : LookaheadBuffer T E) (n : Nat),
      ((try_ensure b n).2.queue).take b.queue.length = b.queue) ∧
    (∀ (T E : Type) (b : LookaheadBuffer T E) (n : Nat),
      ((peek_n b n).2.queue).take b.queue.length = b.queue) ∧
    (∀ (T E : Type) (b : LookaheadBuffer T E) (n : Nat) (e : E),
      (try_ensure b n).1 = .error e → Pull.err e ∈ b.iter.resps) ∧
    (peek_n (new (⟨[Pull.item 0, Pull.err 7], 0⟩ : Source Nat Nat)) 1).1 = .error 7 ∧
    (peek_n (new (⟨[Pull.item 0, Pull.err 7], 0⟩ : Source Nat Nat)) 1).2.queue = [0] ∧
    (peek_n (peek_n (new (⟨[Pull.item 0, Pull.err 7], 0⟩ : Source Nat Nat)) 1).2 0).1 =
      .ok (some 0) ∧
    (peek_n (peek_n (new (⟨[Pull.item 0, Pull.err 7], 0⟩ : Source Nat Nat)) 1).2 0).2.iter.pulls
      = (peek_n (new (⟨[Pull.item 0, Pull.err 7], 0⟩ : Source Nat Nat)) 1).2.iter.pulls :=
  ⟨fun _ _ b _n => pullLoop_queue_take _ b,
   fun _ _ b _n => pullLoop_queue_take _ b,
   fun _ _ b _n e h => pullLoop_error_mem _ b e h,
   rfl, rfl, rfl, rfl⟩

/-- Witness for C5: the error-origin conjunct applied to the concrete
failing source [item 0, err 7] at depth 2. -/
theorem C5_failure_preserves_pulled_items_witness :
    Pull.err 7 ∈ ([Pull.item 0, Pull.err 7] : List (Pull Nat Nat)) :=
  C5_failure_preserves_pulled_items.2.2.1 Nat Nat
    (new (⟨[Pull.item 0, Pull.err 7], 0⟩ : Source Nat Nat)) 2 7 rfl

end Labuf
